import Mathlib

/-!
Shallow embedding of the `VideoProcessingQueue` core of the NoTag downloader
(`VideoProcessor` / `VideoProcessingQueue` in the library module).

Modelling choices, all taken from the JavaScript source:

* JS numbers are embedded as `ℚ` (every arithmetic operation performed by the
  queue — the download sub-step interpolation and the estimated-time values —
  is exact in the rationals), timestamps (`Date.now()`, `new Date()`) as `Nat`
  inputs from the environment, and the random part of generated job ids as a
  `String` input from the environment.

* The JS runtime is single threaded: code between two timer awaits
  (`await new Promise(r => setTimeout(r, …))`) runs without interleaving, and
  promise continuations (microtasks) drain before any new macrotask, so the
  observable states of the queue are exactly the states at timer boundaries.
  The system is therefore embedded as a functional small-step semantics: an
  environment-chosen list of events (`submit`, `dispatch`, executor `write`
  steps, executor terminal `finish` commits) folded over the queue state.

* `Map`/`Set` are embedded as insertion-ordered lists, with `Map.set`
  replacing in place under an existing key and appending otherwise, exactly
  as JS `Map` behaves.

* Aliasing is modelled faithfully: `addJob` stores the job object itself in
  the map, and `updateProgress` stores a fresh shallow copy
  (`this.jobs.set(job.id, { ...job })`) while the executor keeps mutating the
  original object.  Each map slot therefore carries the executor's `live`
  object together with the optional most recent copy (`snap`) that the map
  actually holds once the first `updateProgress` has run.

* `VideoProcessor.extractMetadata` either returns metadata or `null`
  (it catches its own exceptions); which of the two happens is the
  environment's choice and is passed in with the `dispatch` event.
-/

namespace NoTag

/-- The stage names of `ProcessingProgress.stage` (a union of string literals
in the source). -/
inductive Stage
  | analyzing
  | downloading
  | processing
  | converting
  | finalizing
deriving DecidableEq

/-- `ProcessingProgress` from the source: stage name, percent, message and
optional estimated time remaining (seconds). -/
structure ProcessingProgress where
  stage : Stage
  progress : ℚ
  message : String
  estimatedTimeRemaining : Option ℚ := none
deriving DecidableEq

/-- `DownloadOptions` from the source. -/
structure DownloadOptions where
  quality : String
  format : String
  audioOnly : Bool
  removeWatermark : Bool
deriving DecidableEq

/-- `VideoMetadata` from the source (numeric fields are the mock generator's
nonnegative integers). -/
structure VideoMetadata where
  title : String
  description : Option String := none
  duration : Nat
  thumbnail : String
  uploader : String
  uploadDate : String
  viewCount : Option Nat := none
  likeCount : Option Nat := none
deriving DecidableEq

/-- The `result` payload of a `ProcessingJob`. -/
structure JobResult where
  filePath : String
  metadata : VideoMetadata
  downloadUrl : String
deriving DecidableEq

/-- The `status` union of `ProcessingJob`. -/
inductive JobStatus
  | queued
  | processing
  | completed
  | failed
deriving DecidableEq

/-- `ProcessingJob` from the source. -/
structure ProcessingJob where
  id : String
  url : String
  settings : DownloadOptions
  status : JobStatus
  progress : ProcessingProgress
  result : Option JobResult := none
  error : Option String := none
  createdAt : Nat
  completedAt : Option Nat := none
deriving DecidableEq

/-- The URL-safe base64 alphabet (`A`–`Z`, `a`–`z`, `0`–`9`, `-`, `_`). -/
def base64urlAlphabet : List Char :=
  (List.range 26).map (fun i => Char.ofNat (65 + i)) ++
    (List.range 26).map (fun i => Char.ofNat (97 + i)) ++
    (List.range 10).map (fun i => Char.ofNat (48 + i)) ++ ['-', '_']

/-- Character of the base64url alphabet at a 6-bit index. -/
def b64Char (n : Nat) : Char := base64urlAlphabet.getD n 'A'

/-- Base64url encoding of a byte list, without padding, as produced by Node's
`Buffer.toString("base64url")`. -/
def base64urlChars : List Nat → List Char
  | [] => []
  | [a] => [b64Char (a / 4), b64Char (a % 4 * 16)]
  | [a, b] => [b64Char (a / 4), b64Char (a % 4 * 16 + b / 16), b64Char (b % 16 * 4)]
  | a :: b :: c :: rest =>
      b64Char (a / 4) :: b64Char (a % 4 * 16 + b / 16) :: b64Char (b % 16 * 4 + c / 64) ::
        b64Char (c % 64) :: base64urlChars rest

/-- `Buffer.from(s).toString("base64url")` on a string (UTF-8 bytes). -/
def base64url (s : String) : String :=
  String.mk (base64urlChars (s.toUTF8.toList.map (fun b => b.toNat)))

/-- JavaScript `Math.round`: round half up (floor of `x + 1/2`). -/
def jsRound (q : ℚ) : Int := ⌊q + 1 / 2⌋

/-- The snapshot written by the `updateProgress` helper inside `processJob`:
a fresh record `{ stage, progress, message }` with no estimated time. -/
def updateProgressSnapshot (stage : Stage) (progress : ℚ) (message : String) :
    ProcessingProgress :=
  { stage := stage, progress := progress, message := message }

/-- The progress record written by iteration `i` of the loop in
`simulateDownloadProgress`. -/
def downloadProgressStep (startProgress endProgress : ℚ) (steps : Nat) (i : Nat) :
    ProcessingProgress :=
  let progressIncrement := (endProgress - startProgress) / steps
  let currentProgress := startProgress + progressIncrement * i
  let remainingSteps := steps - i
  let estimatedTime := (remainingSteps : ℚ) * (1 / 2)
  { stage := .downloading
    progress := currentProgress
    message := "Downloading... " ++ toString (jsRound currentProgress) ++ "%"
    estimatedTimeRemaining := some estimatedTime }

/-- The ten writes performed by `simulateDownloadProgress` (the loop runs
`steps = 10` times; one write per iteration, each followed by a 500 ms timer). -/
def simulateDownloadProgressWrites (startProgress endProgress : ℚ) :
    List ProcessingProgress :=
  (List.range 10).map (downloadProgressStep startProgress endProgress 10)

/-- One pending progress write of the stage executor, tagged with whether it
goes through `updateProgress` — which also stores a shallow copy of the job
into the jobs map — or is a direct assignment to `job.progress` (the download
sub-steps), which does not touch the map. -/
structure PendingWrite where
  snapshot : ProcessingProgress
  copiesIntoMap : Bool
deriving DecidableEq

/-- The sequence of progress writes `processJob` performs for a job with the
given settings, when `VideoProcessor.extractMetadata` yields `metadata`:
the `analyzing` update, then — if metadata resolution succeeded — the
`downloading` update and the ten download sub-steps, the conditional
`processing` (watermark) update, the `converting` and the 95% `finalizing`
updates.  On metadata failure the function throws after the `analyzing`
update and nothing further is written. -/
def processJobWrites (settings : DownloadOptions) (metadata : Option VideoMetadata) :
    List PendingWrite :=
  { snapshot := updateProgressSnapshot .analyzing 10
      "Analyzing video URL and extracting metadata..."
    copiesIntoMap := true } ::
    match metadata with
    | none => []
    | some _ =>
        ({ snapshot := updateProgressSnapshot .downloading 30 "Downloading video content..."
           copiesIntoMap := true } ::
          (simulateDownloadProgressWrites 30 60).map
            (fun p => { snapshot := p, copiesIntoMap := false })) ++
        (if settings.removeWatermark then
            [{ snapshot := updateProgressSnapshot .processing 65 "Removing watermarks..."
               copiesIntoMap := true }]
          else []) ++
        [{ snapshot := updateProgressSnapshot .converting 80
             ("Converting to " ++ settings.format.toUpper ++ "...")
           copiesIntoMap := true },
         { snapshot := updateProgressSnapshot .finalizing 95 "Finalizing download..."
           copiesIntoMap := true }]

/-- How a `processJob` run ends: with the metadata-failure exception, or
successfully with the final 100% snapshot and the metadata that goes into
`result`. -/
inductive ExecOutcome
  | failure (msg : String)
  | success (finalSnapshot : ProcessingProgress) (metadata : VideoMetadata)
deriving DecidableEq

/-- The outcome of `processJob` as a function of the metadata resolution. -/
def processJobOutcome (metadata : Option VideoMetadata) : ExecOutcome :=
  match metadata with
  | none => .failure "Failed to extract video metadata"
  | some md =>
      .success (updateProgressSnapshot .finalizing 100 "Download completed successfully!") md

/-- One slot of the `jobs` map.  `live` is the job object the executor holds
and mutates; `snap` is the shallow copy most recently stored into the map by
`updateProgress` (or by the terminal commit).  While `snap = none` the map
still holds the original object, so map entry and live object coincide. -/
structure JobEntry where
  live : ProcessingJob
  snap : Option ProcessingJob := none
deriving DecidableEq

/-- The record the jobs map actually holds in this slot — what lookups see. -/
def JobEntry.stored (e : JobEntry) : ProcessingJob := e.snap.getD e.live

/-- Suspended continuation of one running `processJob` call: the writes not
yet performed, and the terminal outcome. -/
structure ExecState where
  remaining : List PendingWrite
  outcome : ExecOutcome
deriving DecidableEq

/-- The state of the singleton `VideoProcessingQueue`: the insertion-ordered
`jobs` map, the `activeJobs` id set, the concurrency limit, and the suspended
executors (implicit in the JS runtime as pending `processJob` promises). -/
structure QueueState where
  jobs : List JobEntry
  activeJobs : List String
  maxConcurrentJobs : Nat
  execs : List (String × ExecState)
deriving DecidableEq

/-- The freshly constructed queue: empty map, empty active set, limit 3. -/
def initState : QueueState :=
  { jobs := [], activeJobs := [], maxConcurrentJobs := 3, execs := [] }

/-- JS `Map.set`: replace the value under an existing key, else append. -/
def mapSet (jobs : List JobEntry) (key : String) (e : JobEntry) : List JobEntry :=
  if ∃ x ∈ jobs, x.live.id = key then
    jobs.map (fun x => if x.live.id = key then e else x)
  else jobs ++ [e]

/-- JS `Set.add`: append the element unless already present. -/
def setAdd (l : List String) (x : String) : List String :=
  if x ∈ l then l else l ++ [x]

/-- The job record `addJob` creates: status `queued`, zero-percent `analyzing`
progress with the queued message.  `jobId` (built from `Date.now()` and a
random base-36 suffix) and `now` (`new Date()`) come from the environment. -/
def mkJob (jobId url : String) (settings : DownloadOptions) (now : Nat) : ProcessingJob :=
  { id := jobId
    url := url
    settings := settings
    status := .queued
    progress := { stage := .analyzing, progress := 0, message := "Job queued for processing" }
    createdAt := now }

/-- `addJob`: store the new record in the map and return its id.  The
dispatch attempt it schedules with `setTimeout(…, 100)` is a separate
`dispatch` event. -/
def addJob (s : QueueState) (jobId url : String) (settings : DownloadOptions) (now : Nat) :
    QueueState × String :=
  ({ s with jobs := mapSet s.jobs jobId { live := mkJob jobId url settings now } }, jobId)

/-- `getJob`: map lookup by id, returning the stored record. -/
def getJob (s : QueueState) (jobId : String) : Option ProcessingJob :=
  (s.jobs.find? (fun e => e.live.id == jobId)).map JobEntry.stored

/-- `queuedJob.status = "processing"` mutates the object found among the map
values: the live object while the slot is still aliased (`snap = none`),
otherwise the stored copy. -/
def markProcessing (e : JobEntry) : JobEntry :=
  match e.snap with
  | none => { e with live := { e.live with status := .processing } }
  | some j => { e with snap := some { j with status := .processing } }

/-- `processNextJob` up to its first suspension point: if the active set is at
or above `maxConcurrentJobs` it does nothing; otherwise it takes the first
job in map insertion order whose status is `queued`, marks it processing,
adds its id to the active set and starts `processJob` for it.  `metadata` is
the value the environment lets `VideoProcessor.extractMetadata` produce for
this job. -/
def processNextJob (s : QueueState) (metadata : Option VideoMetadata) : QueueState :=
  if s.maxConcurrentJobs ≤ s.activeJobs.length then s
  else
    match s.jobs.find? (fun e => e.stored.status == .queued) with
    | none => s
    | some e =>
        { s with
          jobs := s.jobs.map (fun x => if x.live.id = e.live.id then markProcessing x else x)
          activeJobs := setAdd s.activeJobs e.live.id
          execs := s.execs ++ [(e.live.id,
            { remaining := processJobWrites e.stored.settings metadata
              outcome := processJobOutcome metadata })] }

/-- Apply one pending write to a map slot.  An `updateProgress` write assigns
`job.progress` on the live object and stores a fresh shallow copy into the
map; a download sub-step write assigns only the live object. -/
def applyWrite (w : PendingWrite) (e : JobEntry) : JobEntry :=
  let live := { e.live with progress := w.snapshot }
  { live := live, snap := if w.copiesIntoMap then some live else e.snap }

/-- One observable executor step: the job's executor performs its next pending
progress write and suspends again. -/
def execWrite (s : QueueState) (jobId : String) : QueueState :=
  match s.execs.find? (fun p => p.1 == jobId) with
  | none => s
  | some (_, es) =>
      match es.remaining with
      | [] => s
      | w :: rest =>
          { s with
            jobs := s.jobs.map (fun x => if x.live.id = jobId then applyWrite w x else x)
            execs := s.execs.map
              (fun p => if p.1 = jobId then (jobId, { es with remaining := rest }) else p) }

/-- Terminal commit of one executor run, atomic at event-loop granularity (no
timer await separates these statements, so no other task can observe between
them).  On success: `downloadVideo` produces the file path, `result` is
assigned, the final 100% `updateProgress` stores a shallow copy into the map
— a copy that carries the result while its status field still says
`processing` — and then `processNextJob` flips the live object to `completed`
and stamps `completedAt`.  On failure: the catch block sets the live object
to `failed` with the error message and stamps `completedAt`; no
`updateProgress` runs on this path, so the map copy is untouched. -/
def finishEntry (e : JobEntry) (o : ExecOutcome) (now : Nat) : JobEntry :=
  match o with
  | .failure msg =>
      { e with live :=
          { e.live with status := .failed, error := some msg, completedAt := some now } }
  | .success finalSnapshot md =>
      let filePath := "/tmp/downloads/video_" ++ toString now ++ "." ++ e.live.settings.format
      let downloadUrl := "/api/download/file?id=" ++ base64url e.live.id ++ "&format=" ++
        e.live.settings.format
      let live1 : ProcessingJob :=
        { e.live with
          result := some { filePath := filePath, metadata := md, downloadUrl := downloadUrl }
          progress := finalSnapshot }
      { live := { live1 with status := .completed, completedAt := some now }, snap := some live1 }

/-- The terminal event of one executor: commit the outcome, delete the id
from the active set.  The re-dispatch scheduled by the finally block is a
separate `dispatch` event. -/
def execFinish (s : QueueState) (jobId : String) (now : Nat) : QueueState :=
  match s.execs.find? (fun p => p.1 == jobId) with
  | none => s
  | some (_, es) =>
      match es.remaining with
      | _ :: _ => s
      | [] =>
          { s with
            jobs := s.jobs.map (fun x => if x.live.id = jobId then finishEntry x es.outcome now else x)
            activeJobs := s.activeJobs.filter (fun y => y != jobId)
            execs := s.execs.filter (fun p => p.1 != jobId) }

/-- Environment-driven events: a submission, a dispatch attempt (covering the
delayed calls scheduled by `addJob` and by the finally block), and the
resumption of a suspended executor at its next timer — a progress write or
the terminal commit. -/
inductive QEvent
  | submit (jobId url : String) (settings : DownloadOptions) (now : Nat)
  | dispatch (metadata : Option VideoMetadata)
  | write (jobId : String)
  | finish (jobId : String) (now : Nat)

/-- Apply one event to the queue state. -/
def applyEvent (s : QueueState) : QEvent → QueueState
  | .submit jobId url settings now => (addJob s jobId url settings now).1
  | .dispatch metadata => processNextJob s metadata
  | .write jobId => execWrite s jobId
  | .finish jobId now => execFinish s jobId now

/-- Run an event sequence from the freshly constructed queue. -/
def run (events : List QEvent) : QueueState := events.foldl applyEvent initState

/-- Accumulate the id of a `submit` event (first occurrence only). -/
def submitStep (ks : List String) (ev : QEvent) : List String :=
  match ev with
  | .submit jobId _ _ _ => setAdd ks jobId
  | _ => ks

/-- The ids under which `submit` events of an event sequence stored jobs, in
first-occurrence order (re-submitting an existing id overwrites in place). -/
def submittedKeys (events : List QEvent) : List String :=
  events.foldl submitStep []

/-- Every progress snapshot assigned to a job's record over its lifetime, in
program order: the zero-percent snapshot from `addJob`, the executor writes,
and — on success — the final 100% snapshot of the terminal commit. -/
def lifetimeSnapshots (settings : DownloadOptions) (metadata : Option VideoMetadata) :
    List ProcessingProgress :=
  (mkJob "" "" settings 0).progress ::
    ((processJobWrites settings metadata).map (fun w => w.snapshot) ++
      match processJobOutcome metadata with
      | .failure _ => []
      | .success finalSnapshot _ => [finalSnapshot])

/-- Sample request settings used in the concrete executions below. -/
def sampleOptions : DownloadOptions :=
  { quality := "720p", format := "mp4", audioOnly := false, removeWatermark := false }

/-- Sample value for a successful metadata resolution. -/
def sampleMetadata : VideoMetadata :=
  { title := "T", duration := 60, thumbnail := "th", uploader := "u", uploadDate := "d" }

/-- Four jobs submitted and run to termination (each with failing metadata
resolution, the shortest execution), three admitted first under the limit of
three, the fourth admitted after capacity frees up. -/
def fourJobEvents : List QEvent :=
  [.submit "a" "url1" sampleOptions 1, .submit "b" "url2" sampleOptions 2,
   .submit "c" "url3" sampleOptions 3, .submit "d" "url4" sampleOptions 4,
   .dispatch none, .dispatch none, .dispatch none,
   .write "a", .write "b", .write "c",
   .finish "a" 10, .finish "b" 11, .finish "c" 12,
   .dispatch none, .write "d", .finish "d" 13]

/-- One job submitted, dispatched with successful metadata resolution, run
through all fourteen progress writes and the terminal commit. -/
def oneSuccessEvents : List QEvent :=
  [.submit "a" "url1" sampleOptions 5, .dispatch (some sampleMetadata)] ++
    List.replicate 14 (.write "a") ++ [.finish "a" 99]

/-- One job submitted and dispatched with failing metadata resolution: the
executor writes the `analyzing` update, then the metadata exception is
caught and the terminal commit records the failure. -/
def oneFailureEvents : List QEvent :=
  [.submit "a" "url1" sampleOptions 5, .dispatch none, .write "a", .finish "a" 9]

/-! ## Lemmas about the executor write sequence -/

/-- The percents of the ten download sub-step writes, as called by
`processJob` (`simulateDownloadProgress(job, 30, 60)`). -/
lemma downloadPercents_eq :
    (simulateDownloadProgressWrites 30 60).map (fun p => p.progress)
      = [30, 33, 36, 39, 42, 45, 48, 51, 54, 57] := by
  simp [simulateDownloadProgressWrites, downloadProgressStep, List.range_succ]
  norm_num

/-- Every download sub-step write carries the `downloading` stage. -/
lemma downloadStages_eq :
    (simulateDownloadProgressWrites 30 60).map (fun p => p.stage)
      = List.replicate 10 Stage.downloading := by
  simp [simulateDownloadProgressWrites, downloadProgressStep, List.range_succ,
    List.replicate_succ]

/-- The stage names of every snapshot a job with failing metadata resolution
ever receives. -/
lemma lifetimeStages_failure (settings : DownloadOptions) :
    (lifetimeSnapshots settings none).map (fun p => p.stage)
      = [Stage.analyzing, Stage.analyzing] := by
  simp [lifetimeSnapshots, processJobWrites, processJobOutcome, mkJob,
    updateProgressSnapshot]

/-- The stage names of every snapshot a transform-disabled job with
successful metadata resolution ever receives: the conditional `processing`
stage never appears. -/
lemma lifetimeStages_noWatermark (settings : DownloadOptions) (md : VideoMetadata)
    (h : settings.removeWatermark = false) :
    (lifetimeSnapshots settings (some md)).map (fun p => p.stage)
      = [Stage.analyzing, Stage.analyzing, Stage.downloading] ++
          List.replicate 10 Stage.downloading ++
          [Stage.converting, Stage.finalizing, Stage.finalizing] := by
  simp [lifetimeSnapshots, processJobWrites, processJobOutcome, mkJob,
    updateProgressSnapshot, h, List.map_append, Function.comp, downloadStages_eq,
    simulateDownloadProgressWrites, downloadProgressStep, List.range_succ,
    List.replicate_succ]

/-- C4: For every job, the sequence of progress percentages written across
its lifetime — initial snapshot, stage-transition updates, download
sub-steps, final snapshot — is non-decreasing: each successive write's
percent is at least the previous one. -/
theorem lifetimePercents_monotone (settings : DownloadOptions)
    (metadata : Option VideoMetadata) :
    List.Chain' (· ≤ ·) ((lifetimeSnapshots settings metadata).map (fun p => p.progress)) := by
  cases metadata with
  | none =>
      simp [lifetimeSnapshots, processJobWrites, processJobOutcome, mkJob,
        updateProgressSnapshot, List.chain'_cons, List.chain'_singleton]
  | some md =>
      rcases settings with ⟨q, fmt, ao, w⟩
      cases w <;>
        simp [lifetimeSnapshots, processJobWrites, processJobOutcome, mkJob,
          updateProgressSnapshot, List.map_append, Function.comp,
          simulateDownloadProgressWrites, downloadProgressStep, List.range_succ,
          List.chain'_cons, List.chain'_singleton, List.chain'_append] <;>
        norm_num

/-- C6 counterexample: the ten download sub-steps, as invoked by
`processJob`, do not interpolate the 10–60 range evenly (the even
subdivision of 10–60 into ten sub-steps would start at 10; the code's
sub-steps start at 30). -/
theorem downloadSteps_not_spanning_10_60 :
    ¬ ((simulateDownloadProgressWrites 30 60).map (fun p => p.progress)
        = (List.range 10).map (fun i => (10 : ℚ) + (60 - 10) / 10 * (i : ℚ))) := by
  have hr : (List.range 10).map (fun i => (10 : ℚ) + (60 - 10) / 10 * (i : ℚ))
      = [10, 15, 20, 25, 30, 35, 40, 45, 50, 55] := by
    simp [List.range_succ]
    norm_num
  rw [downloadPercents_eq, hr]
  intro h
  norm_num at h

/-- C6 amended: the ten download sub-steps interpolate linearly from 30%
towards 60% in equal increments of 3 points (values 30, 33, …, 57 — the
value 60 itself is never emitted), each sub-step carrying an estimated time
remaining of half a second per sub-step left (from 10 sub-steps left down
to 1); every sub-step lies in the `downloading` stage within 30–60%. -/
theorem downloadSteps_amended :
    ((simulateDownloadProgressWrites 30 60).map
        (fun p => (p.progress, p.estimatedTimeRemaining)))
      = [((30 : ℚ), some ((5 : ℚ))), (33, some (9 / 2)), (36, some 4), (39, some (7 / 2)),
         (42, some 3), (45, some (5 / 2)), (48, some 2), (51, some (3 / 2)),
         (54, some 1), (57, some (1 / 2))] ∧
    ∀ p ∈ simulateDownloadProgressWrites 30 60,
      p.stage = Stage.downloading ∧ 30 ≤ p.progress ∧ p.progress < 60 := by
  constructor
  · simp [simulateDownloadProgressWrites, downloadProgressStep, List.range_succ]
    norm_num
  · intro p hp
    simp [simulateDownloadProgressWrites, List.mem_map] at hp
    obtain ⟨i, hi, rfl⟩ := hp
    refine ⟨rfl, ?_, ?_⟩ <;>
      · simp [downloadProgressStep]
        interval_cases i <;> norm_num

/-- C8: a job whose request does not enable watermark removal never receives
a progress snapshot whose stage is the conditional transform stage
(`processing`): no snapshot with that stage is ever written. -/
theorem watermarkDisabled_no_processing_stage (settings : DownloadOptions)
    (metadata : Option VideoMetadata) (h : settings.removeWatermark = false) :
    ∀ p ∈ lifetimeSnapshots settings metadata, p.stage ≠ Stage.processing := by
  intro p hp hc
  have hmem : p.stage ∈ (lifetimeSnapshots settings metadata).map (fun p => p.stage) :=
    List.mem_map_of_mem _ hp
  cases metadata with
  | none =>
      rw [lifetimeStages_failure] at hmem
      rw [hc] at hmem
      simp at hmem
  | some md =>
      rw [lifetimeStages_noWatermark settings md h] at hmem
      rw [hc] at hmem
      simp at hmem

/-- C8 witness: concrete transform-disabled request. -/
theorem watermarkDisabled_no_processing_stage_witness :
    sampleOptions.removeWatermark = false ∧
      ∀ p ∈ lifetimeSnapshots sampleOptions (some sampleMetadata),
        p.stage ≠ Stage.processing :=
  ⟨rfl, watermarkDisabled_no_processing_stage sampleOptions (some sampleMetadata) rfl⟩

/-! ## Lemmas about the jobs map -/

/-- Replacing the value under a present key makes lookup return it. -/
lemma find?_map_update (jobId : String) (e : JobEntry) (he : e.live.id = jobId) :
    ∀ jobs : List JobEntry, (∃ x ∈ jobs, x.live.id = jobId) →
      (jobs.map (fun x => if x.live.id = jobId then e else x)).find?
          (fun x => x.live.id == jobId) = some e := by
  intro jobs
  induction jobs with
  | nil => simp
  | cons x xs ih =>
      intro hex
      by_cases hx : x.live.id = jobId
      · simp [hx, he]
      · have step :
            List.find? (fun y => y.live.id == jobId)
                (x :: List.map (fun y => if y.live.id = jobId then e else y) xs)
              = List.find? (fun y => y.live.id == jobId)
                  (List.map (fun y => if y.live.id = jobId then e else y) xs) :=
          List.find?_cons_of_neg _ (by simp [hx])
        rw [List.map_cons, if_neg hx, step]
        apply ih
        rcases hex with ⟨y, hy, hid⟩
        rcases List.mem_cons.mp hy with rfl | hmem
        · exact absurd hid hx
        · exact ⟨y, hmem, hid⟩

/-- Appending an entry under an absent key makes lookup return it. -/
lemma find?_append_self (jobId : String) (e : JobEntry) (he : e.live.id = jobId) :
    ∀ jobs : List JobEntry, (¬ ∃ x ∈ jobs, x.live.id = jobId) →
      (jobs ++ [e]).find? (fun x => x.live.id == jobId) = some e := by
  intro jobs
  induction jobs with
  | nil => simp [he]
  | cons x xs ih =>
      intro hni
      push_neg at hni
      have step :
          List.find? (fun y => y.live.id == jobId) (x :: (xs ++ [e]))
            = List.find? (fun y => y.live.id == jobId) (xs ++ [e]) :=
        List.find?_cons_of_neg _ (by simp [hni x (List.mem_cons_self x xs)])
      rw [List.cons_append, step]
      apply ih
      push_neg
      intro y hy
      exact hni y (List.mem_cons_of_mem x hy)

/-- `Map.set` followed by lookup under the same key returns the new entry. -/
lemma find?_mapSet_self (jobs : List JobEntry) (jobId : String) (e : JobEntry)
    (he : e.live.id = jobId) :
    (mapSet jobs jobId e).find? (fun x => x.live.id == jobId) = some e := by
  unfold mapSet
  by_cases hex : ∃ x ∈ jobs, x.live.id = jobId
  · rw [if_pos hex]
    exact find?_map_update jobId e he jobs hex
  · rw [if_neg hex]
    exact find?_append_self jobId e he jobs hex

/-- Looking up a job right after `addJob` stored it returns the new record. -/
lemma getJob_addJob_self (s : QueueState) (jobId url : String)
    (settings : DownloadOptions) (now : Nat) :
    getJob (addJob s jobId url settings now).1 jobId
      = some (mkJob jobId url settings now) := by
  unfold getJob addJob
  rw [find?_mapSet_self s.jobs jobId _ rfl]
  rfl

/-- C10: the record `submit` creates starts with a progress snapshot whose
stage is already `analyzing` (percent 0, queued message) while the status is
still `queued`; a lookup before any dispatch already observes that stage. -/
theorem submit_initial_snapshot (s : QueueState) (jobId url : String)
    (settings : DownloadOptions) (now : Nat) :
    getJob (addJob s jobId url settings now).1 jobId
        = some (mkJob jobId url settings now) ∧
    (mkJob jobId url settings now).status = JobStatus.queued ∧
    (mkJob jobId url settings now).progress.stage = Stage.analyzing ∧
    (mkJob jobId url settings now).progress.progress = 0 ∧
    (mkJob jobId url settings now).progress.message = "Job queued for processing" :=
  ⟨getJob_addJob_self s jobId url settings now, rfl, rfl, rfl, rfl⟩

/-- C5: `submit` always succeeds: under a fresh identifier (the generated
id is assumed not to collide with an issued one) it creates a record in
`queued` state with zero-percent progress, returns that identifier, and a
lookup before any dispatch returns the `queued` record; the identifier is
new (it was not found before the submission). -/
theorem addJob_creates_queued_record (s : QueueState) (jobId url : String)
    (settings : DownloadOptions) (now : Nat)
    (h : ∀ e ∈ s.jobs, e.live.id ≠ jobId) :
    (addJob s jobId url settings now).2 = jobId ∧
    getJob s jobId = none ∧
    getJob (addJob s jobId url settings now).1 jobId
        = some (mkJob jobId url settings now) ∧
    (mkJob jobId url settings now).status = JobStatus.queued ∧
    (mkJob jobId url settings now).progress.progress = 0 := by
  refine ⟨rfl, ?_, getJob_addJob_self s jobId url settings now, rfl, rfl⟩
  unfold getJob
  have : s.jobs.find? (fun x => x.live.id == jobId) = none := by
    rw [List.find?_eq_none]
    intro x hx
    simpa using h x hx
  rw [this]
  rfl

/-- C5 witness: submitting to the fresh queue. -/
theorem addJob_creates_queued_record_witness :
    (∀ e ∈ initState.jobs, e.live.id ≠ "a") ∧
    ((addJob initState "a" "url1" sampleOptions 5).2 = "a" ∧
      getJob initState "a" = none ∧
      getJob (addJob initState "a" "url1" sampleOptions 5).1 "a"
          = some (mkJob "a" "url1" sampleOptions 5) ∧
      (mkJob "a" "url1" sampleOptions 5).status = JobStatus.queued ∧
      (mkJob "a" "url1" sampleOptions 5).progress.progress = 0) :=
  ⟨by simp [initState], addJob_creates_queued_record initState "a" "url1" sampleOptions 5
    (by simp [initState])⟩

/-! ## The keys of the jobs map across a run -/

/-- Marking a job processing does not change the live object's id. -/
lemma markProcessing_id (e : JobEntry) : (markProcessing e).live.id = e.live.id := by
  cases e with
  | mk live snap => cases snap <;> rfl

/-- A progress write does not change the live object's id. -/
lemma applyWrite_id (w : PendingWrite) (e : JobEntry) : (applyWrite w e).live.id = e.live.id :=
  rfl

/-- The terminal commit does not change the live object's id. -/
lemma finishEntry_id (e : JobEntry) (o : ExecOutcome) (now : Nat) :
    (finishEntry e o now).live.id = e.live.id := by
  cases o <;> rfl

/-- Conditionally updating entries with an id-preserving function leaves the
key sequence of the map unchanged. -/
lemma keys_map_update (jobs : List JobEntry) (f : JobEntry → JobEntry)
    (cond : JobEntry → Prop) [DecidablePred cond]
    (hf : ∀ x, cond x → (f x).live.id = x.live.id) :
    (jobs.map (fun x => if cond x then f x else x)).map (fun e => e.live.id)
      = jobs.map (fun e => e.live.id) := by
  induction jobs with
  | nil => rfl
  | cons x xs ih =>
      simp only [List.map_cons, ih]
      by_cases hc : cond x
      · rw [if_pos hc, hf x hc]
      · rw [if_neg hc]

/-- Applying one event changes the key sequence of the jobs map exactly as
`submitStep` says: a submission inserts its id (if new), everything else
leaves the keys unchanged. -/
lemma keys_applyEvent (s : QueueState) (ev : QEvent) :
    (applyEvent s ev).jobs.map (fun e => e.live.id)
      = submitStep (s.jobs.map (fun e => e.live.id)) ev := by
  cases ev with
  | submit jobId url settings now =>
      show (mapSet s.jobs jobId _).map _ = setAdd _ jobId
      unfold mapSet setAdd
      by_cases hex : ∃ x ∈ s.jobs, x.live.id = jobId
      · have hmem : jobId ∈ s.jobs.map (fun e => e.live.id) := by
          rcases hex with ⟨x, hx, hid⟩
          exact List.mem_map.mpr ⟨x, hx, hid⟩
        rw [if_pos hex, if_pos hmem]
        exact keys_map_update s.jobs _ _ (fun x hc => hc.symm)
      · have hmem : ¬ jobId ∈ s.jobs.map (fun e => e.live.id) := by
          intro hmem
          rcases List.mem_map.mp hmem with ⟨x, hx, hid⟩
          exact hex ⟨x, hx, hid⟩
        rw [if_neg hex, if_neg hmem, List.map_append]
        rfl
  | dispatch md =>
      show (processNextJob s md).jobs.map _ = _
      unfold processNextJob
      split
      · rfl
      · split
        · rfl
        · exact keys_map_update s.jobs _ _ (fun x _ => markProcessing_id x)
  | write jobId =>
      show (execWrite s jobId).jobs.map _ = _
      unfold execWrite
      split
      · rfl
      · split
        · rfl
        · exact keys_map_update s.jobs _ _ (fun x _ => applyWrite_id _ x)
  | finish jobId now =>
      show (execFinish s jobId now).jobs.map _ = _
      unfold execFinish
      split
      · rfl
      · split
        · rfl
        · exact keys_map_update s.jobs _ _ (fun x _ => finishEntry_id x _ now)

/-- Folding events over any start state tracks the key sequence through
`submitStep`. -/
lemma keys_foldl (events : List QEvent) :
    ∀ s : QueueState,
      (events.foldl applyEvent s).jobs.map (fun e => e.live.id)
        = events.foldl submitStep (s.jobs.map (fun e => e.live.id)) := by
  induction events with
  | nil => intro s; rfl
  | cons ev evs ih =>
      intro s
      simp only [List.foldl_cons]
      rw [ih (applyEvent s ev), keys_applyEvent]

/-- The keys of the jobs map after a run are exactly the submitted ids in
first-submission order. -/
lemma keys_run (events : List QEvent) :
    (run events).jobs.map (fun e => e.live.id) = submittedKeys events :=
  keys_foldl events initState

/-- Membership in `setAdd`. -/
lemma mem_setAdd (l : List String) (x y : String) :
    y ∈ setAdd l x ↔ y ∈ l ∨ y = x := by
  unfold setAdd
  by_cases hx : x ∈ l
  · rw [if_pos hx]
    constructor
    · exact Or.inl
    · rintro (h | rfl)
      · exact h
      · exact hx
  · rw [if_neg hx]
    simp

/-- A lookup succeeds exactly when the id is among the map's keys. -/
lemma getJob_isSome_iff (s : QueueState) (jobId : String) :
    (getJob s jobId).isSome = true ↔ jobId ∈ s.jobs.map (fun e => e.live.id) := by
  unfold getJob
  rw [Option.isSome_map']
  rw [List.find?_isSome]
  constructor
  · rintro ⟨x, hx, hp⟩
    exact List.mem_map.mpr ⟨x, hx, by simpa using hp⟩
  · intro hmem
    rcases List.mem_map.mp hmem with ⟨x, hx, hid⟩
    exact ⟨x, hx, by simp [hid]⟩

/-- An id is among the submitted keys exactly when some `submit` event
carried it. -/
lemma mem_submittedKeys_iff (events : List QEvent) (jobId : String) :
    jobId ∈ submittedKeys events ↔
      ∃ url settings now, QEvent.submit jobId url settings now ∈ events := by
  have key : ∀ (evs : List QEvent) (ks : List String),
      jobId ∈ evs.foldl submitStep ks ↔
        jobId ∈ ks ∨ ∃ url settings now, QEvent.submit jobId url settings now ∈ evs := by
    intro evs
    induction evs with
    | nil => intro ks; simp
    | cons ev evs ih =>
        intro ks
        rw [List.foldl_cons, ih]
        cases ev with
        | submit jobId2 url settings now =>
            simp only [submitStep, mem_setAdd, List.mem_cons, QEvent.submit.injEq]
            constructor
            · rintro ((h | rfl) | ⟨u, st, n, h⟩)
              · exact Or.inl h
              · exact Or.inr ⟨url, settings, now, Or.inl ⟨rfl, rfl, rfl, rfl⟩⟩
              · exact Or.inr ⟨u, st, n, Or.inr h⟩
            · rintro (h | ⟨u, st, n, ⟨rfl, rfl, rfl, rfl⟩ | h⟩)
              · exact Or.inl (Or.inl h)
              · exact Or.inl (Or.inr rfl)
              · exact Or.inr ⟨u, st, n, h⟩
        | dispatch md => simp [submitStep]
        | write jobId2 => simp [submitStep]
        | finish jobId2 now => simp [submitStep]
  rw [submittedKeys, key]
  simp

/-- C9: `get` finds a record exactly for identifiers previously issued by
`submit`; for an identifier never issued it reports not-found (`none`),
which is distinct from returning an existing record that is still
`queued`. -/
theorem getJob_found_iff_submitted (events : List QEvent) (jobId : String) :
    (getJob (run events) jobId).isSome = true ↔
      ∃ url settings now, QEvent.submit jobId url settings now ∈ events := by
  rw [getJob_isSome_iff, keys_run, mem_submittedKeys_iff]

/-- `find?` returns the first element satisfying the predicate: the list
splits at the found element with nothing satisfying the predicate before
it. -/
lemma find?_split {α : Type} (p : α → Bool) :
    ∀ (l : List α) (a : α), l.find? p = some a →
      ∃ l₁ l₂, l = l₁ ++ a :: l₂ ∧ ∀ x ∈ l₁, p x = false := by
  intro l
  induction l with
  | nil => intro a h; simp at h
  | cons x xs ih =>
      intro a h
      by_cases hx : p x = true
      · rw [List.find?_cons_of_pos xs hx] at h
        obtain rfl : x = a := by simpa using h
        exact ⟨[], xs, rfl, by simp⟩
      · have hx2 : p x = false := by simpa using hx
        rw [List.find?_cons_of_neg xs hx] at h
        obtain ⟨l₁, l₂, rfl, hall⟩ := ih a h
        refine ⟨x :: l₁, l₂, rfl, ?_⟩
        intro y hy
        rcases List.mem_cons.mp hy with rfl | hmem
        · exact hx2
        · exact hall y hmem

/-- C3: whenever a dispatch attempt admits a job (its id is appended to the
active set), the admitted job is the single oldest job still `queued`: its
map entry is queued, every entry before it is non-queued, and the map
entries stand in first-submission order — first submitted, first served. -/
theorem dispatch_admits_oldest_queued (events : List QEvent)
    (md : Option VideoMetadata) (j : String)
    (h : (processNextJob (run events) md).activeJobs = (run events).activeJobs ++ [j]) :
    ∃ pre e post,
      (run events).jobs = pre ++ e :: post ∧
      e.live.id = j ∧
      e.stored.status = JobStatus.queued ∧
      (∀ x ∈ pre, x.stored.status ≠ JobStatus.queued) ∧
      (run events).jobs.map (fun x => x.live.id) = submittedKeys events := by
  have hkeys := keys_run events
  set s := run events with hs
  unfold processNextJob at h
  by_cases hg : s.maxConcurrentJobs ≤ s.activeJobs.length
  · rw [if_pos hg] at h
    exact absurd (congrArg List.length h) (by simp)
  rw [if_neg hg] at h
  cases hfind : s.jobs.find? (fun e => e.stored.status == JobStatus.queued) with
  | none =>
      rw [hfind] at h
      exact absurd (congrArg List.length h) (by simp)
  | some e =>
      rw [hfind] at h
      have hadd : setAdd s.activeJobs e.live.id = s.activeJobs ++ [j] := h
      have hid : e.live.id = j := by
        unfold setAdd at hadd
        by_cases hmem : e.live.id ∈ s.activeJobs
        · rw [if_pos hmem] at hadd
          exact absurd (congrArg List.length hadd) (by simp)
        · rw [if_neg hmem] at hadd
          have := List.append_cancel_left hadd
          simpa using this
      obtain ⟨pre, post, hsplit, hall⟩ := find?_split _ s.jobs e hfind
      refine ⟨pre, e, post, hsplit, hid, ?_, ?_, hkeys⟩
      · have := List.find?_some hfind
        simpa using this
      · intro x hx
        have := hall x hx
        simpa using this

/-- C3 witness: dispatching the fresh queue with one submitted job admits
that job. -/
theorem dispatch_admits_oldest_queued_witness :
    ((processNextJob (run [QEvent.submit "a" "url1" sampleOptions 1]) none).activeJobs
        = (run [QEvent.submit "a" "url1" sampleOptions 1]).activeJobs ++ ["a"]) ∧
    ∃ pre e post,
      (run [QEvent.submit "a" "url1" sampleOptions 1]).jobs = pre ++ e :: post ∧
      e.live.id = "a" ∧
      e.stored.status = JobStatus.queued ∧
      (∀ x ∈ pre, x.stored.status ≠ JobStatus.queued) ∧
      (run [QEvent.submit "a" "url1" sampleOptions 1]).jobs.map (fun x => x.live.id)
        = submittedKeys [QEvent.submit "a" "url1" sampleOptions 1] :=
  ⟨by decide, dispatch_admits_oldest_queued [QEvent.submit "a" "url1" sampleOptions 1]
    none "a" (by decide)⟩

/-- A dispatch attempt at or above the concurrency limit does nothing: no
job is admitted, the state is unchanged. -/
lemma processNextJob_at_capacity (s : QueueState) (md : Option VideoMetadata)
    (h : s.maxConcurrentJobs ≤ s.activeJobs.length) :
    processNextJob s md = s := by
  unfold processNextJob
  rw [if_pos h]

/-! ## Evaluations of the queue on concrete executions

These three theorems evaluate the embedded code on concrete event
sequences.  They document the stale-copy defect: once `updateProgress` has
stored a shallow copy `{ ...job }` into the map, every later mutation of the
original object — including the terminal `status`/`error`/`completedAt`
assignments in `processNextJob` — is invisible to `getJob`, so the registry
keeps reporting such jobs as `processing` forever. -/

/-- C1 evaluation: after the four jobs of `fourJobEvents` have all
terminated (live statuses all `failed`, no executor active), the registry
still reports all four as `processing` — more jobs in `processing` than the
concurrency limit 3. -/
theorem registry_processing_exceeds_limit :
    (((run fourJobEvents).jobs.map JobEntry.stored).filter
        (fun j => j.status == JobStatus.processing)).length = 4 ∧
    (run fourJobEvents).maxConcurrentJobs = 3 ∧
    (run fourJobEvents).activeJobs = [] ∧
    (run fourJobEvents).jobs.map (fun e => e.live.status)
      = [JobStatus.failed, JobStatus.failed, JobStatus.failed, JobStatus.failed] := by
  decide

/-- C2 evaluation: after the single job of `oneSuccessEvents` has completed
(the live object is `completed` and carries the result), the record `getJob`
returns still has status `processing` while its `result` is set — and it
stays that way, since no further write ever reaches the map. -/
theorem registry_result_set_while_processing :
    (getJob (run oneSuccessEvents) "a").map (fun j => (j.status, j.result.isSome))
        = some (JobStatus.processing, true) ∧
    (run oneSuccessEvents).activeJobs = [] ∧
    (run oneSuccessEvents).jobs.map (fun e => (e.live.status, e.live.result.isSome))
      = [(JobStatus.completed, true)] := by
  decide

/-- C7 evaluation: when metadata resolution fails, the executor does abort —
no further stages run (the suspended executor is gone, the live object is
`failed` with the non-empty message and no result) — but the record `getJob`
returns stays at status `processing` in the `analyzing` stage with no error
visible. -/
theorem metadata_failure_not_visible_in_registry :
    (getJob (run oneFailureEvents) "a").map
        (fun j => (j.status, j.error, j.result.isSome, j.progress.stage))
        = some (JobStatus.processing, none, false, Stage.analyzing) ∧
    (run oneFailureEvents).execs = [] ∧
    (run oneFailureEvents).activeJobs = [] ∧
    (run oneFailureEvents).jobs.map
        (fun e => (e.live.status, e.live.error, e.live.result.isSome))
      = [(JobStatus.failed, some "Failed to extract video metadata", false)] := by
  decide

end NoTag
